/-
Verification of the lead-generator scraper (src/maps_scraper.py, src/api.py).

The scraper's pure logic is shallowly embedded:
  * the DOM snapshot handed to BeautifulSoup is abstracted by structures
    (`ListingCard`, `Soup`, `DetailPanel`) holding exactly the pieces the
    Python code queries by selector (element texts and attributes, `none`
    when the selector finds no element);
  * each Python extraction function becomes a pure Lean function over those
    structures, mirroring its control flow statement by statement;
  * the scroll loop is modelled over an arbitrary sequence of observed
    heights, with explicit fuel (the Python loop is `while True`);
  * the job table update logic of api.py is modelled with an explicit
    `JobState` value, the scrape body being abstracted as an outcome
    (normal return vs. raised exception) together with the callback events
    it fired; wall-clock timestamps and CSV file output are outside the
    model.
-/
import Mathlib

namespace LeadGen

/-- A scraped business record: the dict built by `extract_from_list_view`
and `extract_business_info` in maps_scraper.py. All fields are strings. -/
structure Record where
  business_name : String
  category : String
  address : String
  phone : String
  website : String
  has_website : String
  rating : String
  reviews : String
  google_maps_link : String
deriving DecidableEq, Repr

/-- An anchor element, with the two attributes the code reads via
`link.get('aria-label', '')` / `link.get('href', '')`; `none` means the
attribute is absent (Python's `.get` default then yields `''`). -/
structure Anchor where
  ariaLabel : Option String := none
  href : Option String := none
deriving DecidableEq, Repr

/-- One listing card in the results feed, abstracting the sub-elements
`extract_from_list_view` queries on each `listing`:
`find('div', class_='qBF1Pd')` text, `find('span', class_='OSrXXb')` text,
rating span `MW4etd`, reviews span `UY7F9`, all span texts (category scan),
all `W4Efsd` div texts (address scan), the `a.hfpxzc` link, and the
`a[data-value='Website']` indicator. -/
structure ListingCard where
  qBF1Pd : Option String := none
  oSrXXb : Option String := none
  mW4etd : Option String := none
  uY7F9 : Option String := none
  spanTexts : List String := []
  w4EfsdTexts : List String := []
  hfpxzc : Option Anchor := none
  websiteAnchor : Option Anchor := none
deriving DecidableEq, Repr

/-- The parsed page (`soup`): the three listing-selection attempts and the
page-wide `a.hfpxzc` anchors used by the aria-label fallback. -/
structure Soup where
  nv2PK : List ListingCard := []
  lI9IFe : List ListingCard := []
  feedChildren : Option (List ListingCard) := none
  hfpxzcLinks : List Anchor := []
deriving Repr

/-- `pat` is a prefix of `s` (on character lists). -/
def charPrefix : List Char → List Char → Bool
  | [], _ => true
  | _ :: _, [] => false
  | p :: ps, c :: cs => p = c && charPrefix ps cs

/-- `pat` occurs as a contiguous substring of `s` (character lists):
Python's `pat in s`. -/
def charSub (pat : List Char) : List Char → Bool
  | [] => pat.isEmpty
  | c :: cs => charPrefix pat (c :: cs) || charSub pat cs

/-- Python's `x in text` on strings. -/
def strContains (text x : String) : Bool := charSub x.data text.data

/-- The whitespace characters Python's `str.strip()` removes (the ASCII
ones; the scraped texts are the only inputs). -/
def isPySpace (c : Char) : Bool :=
  c = ' ' || c = '\t' || c = '\n' || c = '\r' || c = '\x0b' || c = '\x0c'

/-- Python's `s.strip()`: drop leading and trailing whitespace. -/
def pyStrip (s : String) : String :=
  ⟨((s.data.dropWhile isPySpace).reverse.dropWhile isPySpace).reverse⟩

/-- Lower-case an ASCII letter (Python's `str.lower()` on the ASCII
keywords the address heuristic compares against). -/
def asciiLower (c : Char) : Char :=
  if 'A' ≤ c ∧ c ≤ 'Z' then Char.ofNat (c.toNat + 32) else c

/-- Python's `s.lower()`. -/
def pyLower (s : String) : String := ⟨s.data.map asciiLower⟩

/-- Python's `s.replace(ch, '')` for a one-character pattern: remove every
occurrence of `ch`. -/
def removeChar (ch : Char) (s : String) : String :=
  ⟨s.data.filter (fun c => c ≠ ch)⟩

/-- Python's `s.split(sep)[0]` for a one-character separator: everything
before the first occurrence of `sep`. -/
def beforeChar (sep : Char) (s : String) : String :=
  ⟨s.data.takeWhile (fun c => c ≠ sep)⟩

/-- `re.search(r'\d{2,}', text)`: two consecutive decimal digits occur. -/
def hasTwoDigits : List Char → Bool
  | [] => false
  | [_] => false
  | a :: b :: rest => (a.isDigit && b.isDigit) || hasTwoDigits (b :: rest)

/-- The address keywords of maps_scraper.py line 168. -/
def addressWords : List String :=
  ["street", "road", "ave", "blvd", "dr", "lane", "st,", "rd,"]

/-- The address heuristic of maps_scraper.py line 168:
`any(x in text.lower() for x in [...]) or re.search(r'\d{2,}', text)`. -/
def isAddressText (text : String) : Bool :=
  addressWords.any (fun x => strContains (pyLower text) x) || hasTwoDigits text.data

/-- The address scan over the `W4Efsd` div texts (lines 163-170): first
stripped text passing `isAddressText`, else `""`. -/
def findAddress : List String → String
  | [] => ""
  | d :: rest =>
    let text := pyStrip d
    if isAddressText text then text else findAddress rest

/-- The category scan over all span texts (lines 152-160): first stripped
non-empty text containing `'·'` yields its part before the first `'·'`,
stripped; else `""`. -/
def findCategory : List String → String
  | [] => ""
  | s :: rest =>
    let text := pyStrip s
    if text ≠ "" && strContains text "·" then pyStrip (beforeChar '·' text)
    else findCategory rest

/-- The per-listing body of `extract_from_list_view` (lines 130-194).
`none` mirrors the `continue` on an empty stripped name. List-view records
always carry `phone = ""` and `website = ""` (code comments: not available
in list view). -/
def extractCard (c : ListingCard) : Option Record :=
  let name := match c.qBF1Pd with
    | some t => pyStrip t
    | none => match c.oSrXXb with
      | some t => pyStrip t
      | none => ""
  if name = "" then none
  else
    let rating := match c.mW4etd with
      | some t => pyStrip t
      | none => ""
    let reviews := match c.uY7F9 with
      | some t => removeChar ')' (removeChar '(' (pyStrip t))
      | none => ""
    let category := findCategory c.spanTexts
    let address := findAddress c.w4EfsdTexts
    let maps_link := match c.hfpxzc with
      | some a => a.href.getD ""
      | none => ""
    let has_web := if c.websiteAnchor.isSome then "Yes" else "Unknown"
    some { business_name := name, category := category, address := address,
           phone := "", website := "", has_website := has_web,
           rating := rating, reviews := reviews, google_maps_link := maps_link }

/-- Listing selection with its two selector fallbacks (lines 116-125). -/
def pickListings (s : Soup) : List ListingCard :=
  if s.nv2PK ≠ [] then s.nv2PK
  else if s.lI9IFe ≠ [] then s.lI9IFe
  else match s.feedChildren with
    | some cs => cs
    | none => []

/-- Primary selector-based list-view extraction (lines 116-207). -/
def primaryResults (s : Soup) : List Record :=
  (pickListings s).filterMap extractCard

/-- The aria-label fallback body (lines 213-230): a record is appended only
when the anchor's aria-label (default `''`) is non-empty. -/
def fallbackRecord (a : Anchor) : Option Record :=
  let aria := a.ariaLabel.getD ""
  let href := a.href.getD ""
  if aria = "" then none
  else some { business_name := aria, category := "", address := "",
              phone := "", website := "", has_website := "Unknown",
              rating := "", reviews := "", google_maps_link := href }

/-- The aria-label fallback pass over all `a.hfpxzc` anchors of the page. -/
def fallbackResults (s : Soup) : List Record :=
  s.hfpxzcLinks.filterMap fallbackRecord

/-- `extract_from_list_view` (lines 109-236): primary extraction, and the
aria-label fallback exactly when the primary result list is empty
(`if not results:` at line 210). -/
def extract_from_list_view (s : Soup) : List Record :=
  let results := primaryResults s
  if results = [] then fallbackResults s else results

/-- The detail panel, abstracting the elements `extract_business_info`
queries: `current_url`, `h1.DUwDvf` text, `span.ceNzKf` with its
`aria-label` attribute, `span.F7nice` text, the address / phone buttons'
texts, the `a[data-item-id='authority']` link with its `href`, and the
`button.DkEaL` text. -/
structure DetailPanel where
  current_url : String := ""
  dUwDvf : Option String := none
  ceNzKf : Option (Option String) := none
  f7nice : Option String := none
  addressBtn : Option String := none
  phoneBtn : Option String := none
  authority : Option (Option String) := none
  dkEaL : Option String := none
deriving DecidableEq, Repr

/-- `extract_business_info` (lines 239-293): `none` mirrors `return None`
on an empty stripped name; `has_website` is `'Yes' if website else 'No'`. -/
def extract_business_info (d : DetailPanel) : Option Record :=
  let name := match d.dUwDvf with
    | some t => pyStrip t
    | none => ""
  if name = "" then none
  else
    let rating := match d.ceNzKf with
      | some attr => attr.getD ""
      | none => ""
    let reviews := match d.f7nice with
      | some t => pyStrip t
      | none => ""
    let address := match d.addressBtn with
      | some t => pyStrip t
      | none => ""
    let phone := match d.phoneBtn with
      | some t => pyStrip t
      | none => ""
    let website := match d.authority with
      | some h => h.getD ""
      | none => ""
    let category := match d.dkEaL with
      | some t => pyStrip t
      | none => ""
    some { business_name := name, category := category, address := address,
           phone := phone, website := website,
           has_website := if website ≠ "" then "Yes" else "No",
           rating := rating, reviews := reviews,
           google_maps_link := d.current_url }

/-- `last_height` entering check `i` of the scroll loop: initialized to 0,
then set to the previous check's observed height (line 77 / line 98). -/
def prevH (h : Nat → Nat) : Nat → Nat
  | 0 => 0
  | i + 1 => h i

/-- The `while True` scroll loop of `scroll_results` (lines 74-106) over an
arbitrary sequence `h` of observed `scrollHeight` values, with explicit
fuel (the Python loop is unbounded). Arguments after the fuel: iteration
index, `last_height`, `no_change_count`, `scroll_count`. Returns
`some scroll_count` when the loop breaks (`no_change_count >= 5`), `none`
when the fuel runs out with the loop still going. -/
def scrollAux (h : Nat → Nat) : Nat → Nat → Nat → Nat → Nat → Option Nat
  | 0, _, _, _, _ => none
  | fuel + 1, i, last, nc, cnt =>
    if h i = last then
      if nc + 1 ≥ 5 then some cnt
      else scrollAux h fuel (i + 1) (h i) (nc + 1) (cnt + 1)
    else scrollAux h fuel (i + 1) (h i) 0 (cnt + 1)

/-- `scroll_results` from its initial state
(`last_height = 0`, `no_change_count = 0`, `scroll_count = 0`). -/
def scroll_results (h : Nat → Nat) (fuel : Nat) : Option Nat :=
  scrollAux h fuel 0 0 0 0

/-- The dedup key of api.py line 42: `(business_name, address)`. -/
def recordKey (r : Record) : String × String := (r.business_name, r.address)

/-- The loop of `deduplicate_results` (api.py lines 40-45), the `seen` set
modelled as the list of keys added so far. -/
def dedupGo : List Record → List (String × String) → List Record
  | [], _ => []
  | r :: rest, seen =>
    if recordKey r ∈ seen then dedupGo rest seen
    else r :: dedupGo rest (recordKey r :: seen)

/-- `deduplicate_results` (api.py lines 37-46). -/
def deduplicate_results (rs : List Record) : List Record := dedupGo rs []

/-- The in-place update of a matched record by the fast-mode enrichment
pass (maps_scraper.py lines 389-392): `phone`, `website`, `has_website`
are overwritten from the detail-panel record, `address` only when the
detail-panel address is non-empty (`info['address'] or r['address']`);
every other field is untouched. -/
def updateRecord (info r : Record) : Record :=
  { r with phone := info.phone, website := info.website,
           has_website := info.has_website,
           address := if info.address ≠ "" then info.address else r.address }

/-- The `for r in results: ... break` search of lines 387-393: update the
first record whose `business_name` equals the detail record's, leave the
rest alone; no match leaves the list unchanged. -/
def enrichOne (info : Record) : List Record → List Record
  | [] => []
  | r :: rest =>
    if r.business_name = info.business_name then updateRecord info r :: rest
    else r :: enrichOne info rest

/-- The outcome of clicking listing `i` during enrichment: `details i` is
the detail panel the click produced, `none` when the click itself raised
(the per-listing `except` swallows it, line 401). -/
def clickInfo (details : Nat → Option DetailPanel) (i : Nat) : Option Record :=
  (details i).bind extract_business_info

/-- The enrichment loop body over the clicked indices (lines 377-403): a
failed click or a `None` detail extraction leaves `results` unchanged. -/
def enrichLoop (details : Nat → Option DetailPanel)
    (results : List Record) (idxs : List Nat) : List Record :=
  idxs.foldl (fun rs i =>
    match clickInfo details i with
    | some info => enrichOne info rs
    | none => rs) results

/-- The fast-mode branch of `scrape_maps_with_progress` (lines 366-403):
list-view extraction, then — when `detail_limit > 0` and there is at least
one listing node — enrichment of `listings[:detail_limit]`, i.e. of the
clicked indices `0, …, min detail_limit numListings - 1`. -/
def fastMode (s : Soup) (details : Nat → Option DetailPanel)
    (numListings detail_limit : Nat) : List Record :=
  let results := extract_from_list_view s
  if 0 < detail_limit ∧ 0 < numListings then
    enrichLoop details results (List.range (min detail_limit numListings))
  else results

/-- The `data` dict passed to a progress callback; only the keys
api.py's `progress_callback` reads are modelled. -/
structure CbData where
  message : Option String := none
  count : Option Nat := none
  total : Option Nat := none
  current : Option Nat := none
  collected : Option Nat := none
deriving DecidableEq, Repr

/-- One entry of a job's `logs` list (the wall-clock `time` field is
outside the model). -/
structure LogEntry where
  event : String
  data : CbData
deriving DecidableEq, Repr

/-- One job's entry in the `jobs` table of api.py (the CSV file path is
outside the model). -/
structure JobState where
  status : String
  phase : String
  query : String
  total_leads : Option Nat
  total_listings : Nat
  current : Nat
  collected : Nat
  scroll_count : Nat
  results : Option (List Record)
  error : Option String
  logs : List LogEntry
deriving DecidableEq, Repr

/-- The job entry created by `start_scrape` (api.py lines 132-146). -/
def initialJob (query : String) : JobState :=
  { status := "pending", phase := "pending", query := query,
    total_leads := none, total_listings := 0, current := 0, collected := 0,
    scroll_count := 0, results := none, error := none, logs := [] }

/-- `progress_callback` (api.py lines 49-70) for an existing job: the event
is appended to the logs, and only the events `"scrolling"`,
`"listings_found"` and `"extracting"` update any other field — in
particular an `"error"` event only lands in the logs. -/
def progress_callback (j : JobState) (event : String) (data : CbData) : JobState :=
  let j := { j with logs := j.logs ++ [{ event := event, data := data }] }
  if event = "scrolling" then
    { j with phase := "scrolling", scroll_count := data.count.getD 0 }
  else if event = "listings_found" then
    { j with phase := "extracting", total_listings := data.total.getD 0 }
  else if event = "extracting" then
    { j with phase := "extracting", current := data.current.getD 0,
             total_listings := data.total.getD 0,
             collected := data.collected.getD 0 }
  else j

/-- The body of the top-level `try` of `scrape_maps_with_progress`
(lines 322-431), abstracted by its outcome: the callback events it fired
(in order), and either the result list it produced or, when it raised an
uncaught exception, the value of `results` at that moment together with
the exception message `str(e)`. -/
inductive BodyOutcome where
  | ok (events : List (String × CbData)) (results : List Record)
  | raises (events : List (String × CbData)) (partialResults : List Record)
      (msg : String)

/-- Fire a list of callback events against the job state. -/
def fireEvents (j : JobState) (evs : List (String × CbData)) : JobState :=
  evs.foldl (fun j e => progress_callback j e.1 e.2) j

/-- What `scrape_maps_with_progress` hands back: the job state after all
its callbacks, the returned result list, and whether `driver.quit()` ran. -/
structure ScrapeRet where
  job : JobState
  results : List Record
  browserQuit : Bool
deriving Repr

/-- The exception/cleanup skeleton of `scrape_maps_with_progress`
(lines 316-443), with the browser successfully started: the
`"browser_starting"` callback, the `try` body, an `except` clause that
catches any body exception and fires an `"error"` callback with `str(e)`
(line 436), and a `finally` that quits the browser and fires
`"browser_closed"` (lines 437-440). In both cases the function RETURNS
normally — a scrape-loop exception never propagates to the caller. -/
def scrape_maps_with_progress (j : JobState) (body : BodyOutcome) : ScrapeRet :=
  let j := progress_callback j "browser_starting"
    { message := some "Starting Chrome browser..." }
  match body with
  | .ok evs rs =>
    let j := fireEvents j evs
    let j := progress_callback j "browser_closed"
      { message := some "Browser closed" }
    { job := j, results := rs, browserQuit := true }
  | .raises evs partialRs msg =>
    let j := fireEvents j evs
    let j := progress_callback j "error" { message := some msg }
    let j := progress_callback j "browser_closed"
      { message := some "Browser closed" }
    { job := j, results := partialRs, browserQuit := true }

/-- The job state after the opening of `run_scraper` (api.py lines 75-81):
status running, phase starting, the "started" log entry appended. -/
def startedJob (query : String) : JobState :=
  let j := initialJob query
  let startLog : LogEntry :=
    { event := "started",
      data := { message := some ("Starting scrape for: " ++ query) } }
  { j with status := "running", phase := "starting",
           logs := j.logs ++ [startLog] }

/-- `run_scraper` (api.py lines 73-124): marks the job running, runs the
scrape, and on a non-empty result list deduplicates and completes the job;
on an empty list completes it with zero leads. The `except` clause of
lines 116-124 (which is the only writer of the job's `error` field) fires
only when `scrape_maps_with_progress` itself raises, which the modelled
scrape (browser started, loop exception caught internally) never does.
CSV writing is outside the model. -/
def run_scraper (query : String) (body : BodyOutcome) : JobState :=
  let ret := scrape_maps_with_progress (startedJob query) body
  let j := ret.job
  if ret.results ≠ [] then
    let rs := deduplicate_results ret.results
    let doneLog : LogEntry :=
      { event := "completed", data := { message := some "Completed" } }
    { j with status := "completed", phase := "completed",
             total_leads := some rs.length, results := some rs,
             logs := j.logs ++ [doneLog] }
  else
    { j with status := "completed", phase := "completed",
             total_leads := some 0, results := some [] }

/-- A concrete listing card, its soup, and the record they extract to. -/
def wCard : ListingCard := { qBF1Pd := some " Acme " }

/-- A one-card soup built from `wCard`. -/
def wSoup : Soup := { nv2PK := [wCard] }

/-- The record `extractCard wCard` produces. -/
def wRec : Record :=
  { business_name := "Acme", category := "", address := "", phone := "",
    website := "", has_website := "Unknown", rating := "", reviews := "",
    google_maps_link := "" }

/-- A concrete detail panel with a name, phone and website. -/
def wPanel : DetailPanel :=
  { current_url := "https://maps.example/biz", dUwDvf := some "Biz Co",
    phoneBtn := some " 555-0100 ", authority := some (some "http://biz.example") }

/-- The record `extract_business_info wPanel` produces. -/
def wRecD : Record :=
  { business_name := "Biz Co", category := "", address := "",
    phone := "555-0100", website := "http://biz.example",
    has_website := "Yes", rating := "", reviews := "",
    google_maps_link := "https://maps.example/biz" }

/-- A concrete page anchor with an aria-label, for the fallback path. -/
def wAnchor : Anchor := { ariaLabel := some "Fallback Biz", href := some "http://maps.example/f" }

/-- The record `fallbackRecord wAnchor` produces. -/
def wRecF : Record :=
  { business_name := "Fallback Biz", category := "", address := "",
    phone := "", website := "", has_website := "Unknown", rating := "",
    reviews := "", google_maps_link := "http://maps.example/f" }

/-- A record with key ("A", "1"). -/
def wDupA : Record :=
  { business_name := "A", category := "c1", address := "1", phone := "",
    website := "", has_website := "Unknown", rating := "", reviews := "",
    google_maps_link := "" }

/-- A record with key ("B", "2"). -/
def wDupB : Record :=
  { business_name := "B", category := "c2", address := "2", phone := "",
    website := "", has_website := "Unknown", rating := "", reviews := "",
    google_maps_link := "" }

/-- A second record with the same key as `wDupA` but different content. -/
def wDupA2 : Record :=
  { business_name := "A", category := "c3", address := "1", phone := "7",
    website := "", has_website := "Unknown", rating := "", reviews := "",
    google_maps_link := "" }

/-- A detail record whose name matches `wDupB`. -/
def wInfo : Record :=
  { business_name := "B", category := "cd", address := "9 Main St",
    phone := "555-1", website := "http://b.example", has_website := "Yes",
    rating := "", reviews := "", google_maps_link := "gm" }

/-- A soup with no listing cards and one `a.hfpxzc` anchor that carries an
href but no aria-label: the page contains a listing anchor, yet the
fallback emits nothing. -/
def wBadSoup : Soup := { hfpxzcLinks := [{ href := some "http://maps.example/x" }] }

/-- A soup whose only content is the page anchor `wAnchor`. -/
def wFSoup : Soup := { hfpxzcLinks := [wAnchor] }

/-- The `no_change_count` entering check `m` of the scroll loop, assuming
no break has occurred: the length of the run of unchanged checks
immediately before `m`. -/
def ncAt (h : Nat → Nat) : Nat → Nat
  | 0 => 0
  | m + 1 => if h m = prevH h m then ncAt h m + 1 else 0

/-- The all-empty record, used as the `getD` default in witnesses. -/
def emptyRecord : Record :=
  { business_name := "", category := "", address := "", phone := "",
    website := "", has_website := "", rating := "", reviews := "",
    google_maps_link := "" }

/-- 23 pairwise-distinct business names for the C7 scenario. -/
def wNames : List String :=
  ["Alfa", "Bravo", "Carlo", "Delta", "Echo1", "Foxt", "Golf", "Hotel",
   "India", "Julia", "Kilo", "Lima", "Mike", "Nov", "Oscar", "Papa",
   "Quebec", "Romeo", "Sierra", "Tango", "Unif", "Victor", "Whiskey"]

/-- 23 listing cards named from `wNames`. -/
def wCards23 : List ListingCard := wNames.map (fun n => { qBF1Pd := some n })

/-- A feed page with the 23 listing cards. -/
def wSoup23 : Soup := { nv2PK := wCards23 }

/-- Clicking listing `i < 10` opens a detail panel for the i-th business
(with a phone and website); later clicks yield nothing. -/
def wDetails23 (i : Nat) : Option DetailPanel :=
  if i < 10 then
    some { current_url := "u", dUwDvf := some (wNames.getD i ""),
           phoneBtn := some "555", authority := some (some "http://w.example") }
  else none

/-- Fields of a record produced by the per-listing list-view body. -/
theorem extractCard_fields {c : ListingCard} {r : Record}
    (h : extractCard c = some r) :
    r.business_name ≠ "" ∧ r.phone = "" ∧ r.website = "" ∧
    r.has_website = (if c.websiteAnchor.isSome then "Yes" else "Unknown") := by
  simp only [extractCard] at h
  split at h
  · exact absurd h (by simp)
  · next hne =>
    injection h with h
    subst h
    exact ⟨hne, rfl, rfl, rfl⟩

/-- Fields of a record produced by the aria-label fallback body. -/
theorem fallbackRecord_fields {a : Anchor} {r : Record}
    (h : fallbackRecord a = some r) :
    r.business_name = a.ariaLabel.getD "" ∧ r.business_name ≠ "" ∧
    r.phone = "" ∧ r.website = "" ∧ r.has_website = "Unknown" ∧
    r.google_maps_link = a.href.getD "" := by
  simp only [fallbackRecord] at h
  split at h
  · exact absurd h (by simp)
  · next hne =>
    injection h with h
    subst h
    exact ⟨rfl, hne, rfl, rfl, rfl, rfl⟩

/-- Fields of a record produced by the detail-panel extraction. -/
theorem extract_business_info_fields {d : DetailPanel} {r : Record}
    (h : extract_business_info d = some r) :
    r.business_name ≠ "" ∧
    r.has_website = (if r.website ≠ "" then "Yes" else "No") := by
  simp only [extract_business_info] at h
  split at h
  · exact absurd h (by simp)
  · next hne =>
    injection h with h
    subst h
    exact ⟨hne, rfl⟩

/-- Every list-view record comes from a listing card via the primary body
or from a page anchor via the fallback body. -/
theorem mem_extract_from_list_view {s : Soup} {r : Record}
    (h : r ∈ extract_from_list_view s) :
    (∃ c ∈ pickListings s, extractCard c = some r) ∨
    (∃ a ∈ s.hfpxzcLinks, fallbackRecord a = some r) := by
  simp only [extract_from_list_view, primaryResults, fallbackResults] at h
  split at h
  · right
    exact List.mem_filterMap.1 h
  · left
    exact List.mem_filterMap.1 h

/-- C1: for every listing record returned by the scrape (list-view
extraction, aria-label fallback extraction, or detail-panel extraction),
the business_name field is a non-empty string — the extractor never emits
a record with an empty business name. -/
theorem C1_business_name_nonempty :
    (∀ s r, r ∈ extract_from_list_view s → r.business_name ≠ "") ∧
    (∀ d r, extract_business_info d = some r → r.business_name ≠ "") := by
  constructor
  · intro s r hr
    rcases mem_extract_from_list_view hr with ⟨c, _, hc⟩ | ⟨a, _, ha⟩
    · exact (extractCard_fields hc).1
    · exact (fallbackRecord_fields ha).2.1
  · intro d r hd
    exact (extract_business_info_fields hd).1

/-- Witness for C1 at the concrete soup `wSoup` and panel `wPanel`. -/
theorem C1_business_name_nonempty_witness :
    wRec.business_name ≠ "" ∧ wRecD.business_name ≠ "" :=
  ⟨C1_business_name_nonempty.1 wSoup wRec (by decide),
   C1_business_name_nonempty.2 wPanel wRecD (by decide)⟩

/-- C2: has_website per extraction path. On the detail-panel path it is
"Yes" exactly when the extracted website URL is non-empty and "No" exactly
when it is empty. On the list-view primary path the website URL itself is
not captured (the website field stays empty); what is detected is the
listing's website anchor (`a[data-value='Website']`): has_website is "Yes"
exactly when that anchor is present and "Unknown" exactly when it is
absent (presence undetermined — this path never emits "No"). The
aria-label fallback path always emits "Unknown". -/
theorem C2_has_website :
    (∀ d r, extract_business_info d = some r →
      ((r.has_website = "Yes" ↔ r.website ≠ "") ∧
       (r.has_website = "No" ↔ r.website = ""))) ∧
    (∀ c r, extractCard c = some r →
      ((r.has_website = "Yes" ↔ c.websiteAnchor.isSome = true) ∧
       (r.has_website = "Unknown" ↔ c.websiteAnchor.isSome = false))) ∧
    (∀ a r, fallbackRecord a = some r → r.has_website = "Unknown") := by
  refine ⟨?_, ?_, ?_⟩
  · intro d r hd
    have hw := (extract_business_info_fields hd).2
    by_cases hweb : r.website = "" <;> simp [hweb] at hw <;> simp [hw, hweb]
  · intro c r hc
    have hw := (extractCard_fields hc).2.2.2
    by_cases hanc : c.websiteAnchor.isSome = true <;> simp [hanc] at hw <;>
      simp [hw, hanc]
  · intro a r ha
    exact (fallbackRecord_fields ha).2.2.2.2.1

/-- Witness for C2 at a concrete detail panel, listing card and anchor. -/
theorem C2_has_website_witness :
    ((wRecD.has_website = "Yes" ↔ wRecD.website ≠ "") ∧
     (wRecD.has_website = "No" ↔ wRecD.website = "")) ∧
    ((wRec.has_website = "Yes" ↔ wCard.websiteAnchor.isSome = true) ∧
     (wRec.has_website = "Unknown" ↔ wCard.websiteAnchor.isSome = false)) ∧
    wRecF.has_website = "Unknown" :=
  ⟨C2_has_website.1 wPanel wRecD (by decide),
   C2_has_website.2.1 wCard wRec (by decide),
   C2_has_website.2.2 wAnchor wRecF (by decide)⟩

/-- C8: every record produced by list-view extraction (primary or fallback
path) has empty phone and empty website; in the pipeline only the
detail-panel enrichment (`updateRecord` inside `enrichOne`) writes those
two fields. -/
theorem C8_list_view_phone_website_empty :
    ∀ s r, r ∈ extract_from_list_view s → r.phone = "" ∧ r.website = "" := by
  intro s r hr
  rcases mem_extract_from_list_view hr with ⟨c, _, hc⟩ | ⟨a, _, ha⟩
  · exact ⟨(extractCard_fields hc).2.1, (extractCard_fields hc).2.2.1⟩
  · exact ⟨(fallbackRecord_fields ha).2.2.1, (fallbackRecord_fields ha).2.2.2.1⟩

/-- Witness for C8 at the concrete soup `wSoup`. -/
theorem C8_list_view_phone_website_empty_witness :
    wRec.phone = "" ∧ wRec.website = "" :=
  C8_list_view_phone_website_empty wSoup wRec (by decide)

/-- The dedup loop output is a sublist of its input. -/
theorem dedupGo_sublist (rs : List Record) (seen : List (String × String)) :
    (dedupGo rs seen).Sublist rs := by
  induction rs generalizing seen with
  | nil => simp [dedupGo]
  | cons r rest ih =>
    simp only [dedupGo]
    split
    · exact (ih seen).cons r
    · exact (ih _).cons₂ r

/-- Every record kept by the dedup loop has a key outside `seen`, and is
the first record of the input carrying its key. -/
theorem dedupGo_mem_find {rs : List Record} {seen : List (String × String)}
    {r' : Record} (h : r' ∈ dedupGo rs seen) :
    recordKey r' ∉ seen ∧
    rs.find? (fun r => recordKey r = recordKey r') = some r' := by
  induction rs generalizing seen with
  | nil => simp [dedupGo] at h
  | cons r rest ih =>
    simp only [dedupGo] at h
    split at h
    · next hin =>
      obtain ⟨hout, hfind⟩ := ih h
      have hne : recordKey r ≠ recordKey r' := by
        intro hk
        exact hout (hk ▸ hin)
      refine ⟨hout, ?_⟩
      simp only [List.find?_cons, decide_eq_false hne]
      exact hfind
    · next hout =>
      rcases List.mem_cons.1 h with rfl | hmem
      · refine ⟨hout, ?_⟩
        simp [List.find?_cons]
      · obtain ⟨hout', hfind⟩ := ih hmem
        have hne : recordKey r ≠ recordKey r' := by
          intro hk
          exact hout' (by rw [← hk] ; exact List.mem_cons_self _ _)
        refine ⟨fun hs => hout' (List.mem_cons_of_mem _ hs), ?_⟩
        simp only [List.find?_cons, decide_eq_false hne]
        exact hfind

/-- Every input record's key is covered: it was already in `seen` or some
kept record carries it. -/
theorem dedupGo_covers {rs : List Record} {seen : List (String × String)} :
    ∀ r ∈ rs, recordKey r ∈ seen ∨
      ∃ r' ∈ dedupGo rs seen, recordKey r' = recordKey r := by
  induction rs generalizing seen with
  | nil => simp
  | cons a rest ih =>
    intro r hr
    simp only [dedupGo]
    split
    · next hin =>
      rcases List.mem_cons.1 hr with rfl | hmem
      · exact Or.inl hin
      · exact ih r hmem
    · next hout =>
      rcases List.mem_cons.1 hr with h_eq | hmem
      · subst h_eq
        exact Or.inr ⟨_, List.mem_cons_self _ _, rfl⟩
      · rcases ih r hmem with hin' | ⟨r', hr', hk⟩
        · rcases List.mem_cons.1 hin' with heq | hin''
          · exact Or.inr ⟨a, List.mem_cons_self _ _, heq.symm⟩
          · exact Or.inl hin''
        · exact Or.inr ⟨r', List.mem_cons_of_mem _ hr', hk⟩

/-- Kept records have pairwise distinct keys. -/
theorem dedupGo_pairwise (rs : List Record) (seen : List (String × String)) :
    (dedupGo rs seen).Pairwise (fun a b => recordKey a ≠ recordKey b) := by
  induction rs generalizing seen with
  | nil => simp [dedupGo]
  | cons r rest ih =>
    simp only [dedupGo]
    split
    · exact ih seen
    · refine List.Pairwise.cons ?_ (ih _)
      intro b hb hk
      exact (dedupGo_mem_find hb).1 (hk ▸ List.mem_cons_self _ _)

/-- A list whose keys avoid `seen` and are pairwise distinct passes the
dedup loop unchanged. -/
theorem dedupGo_of_distinct {rs : List Record} {seen : List (String × String)}
    (h1 : ∀ r ∈ rs, recordKey r ∉ seen)
    (h2 : rs.Pairwise (fun a b => recordKey a ≠ recordKey b)) :
    dedupGo rs seen = rs := by
  induction rs generalizing seen with
  | nil => simp [dedupGo]
  | cons r rest ih =>
    rw [List.pairwise_cons] at h2
    simp only [dedupGo, if_neg (h1 r (List.mem_cons_self _ _))]
    congr 1
    refine ih ?_ h2.2
    intro a ha hmem
    rcases List.mem_cons.1 hmem with heq | hin
    · exact h2.1 a ha heq.symm
    · exact h1 a (List.mem_cons_of_mem _ ha) hin

/-- C6: deduplication keeps exactly the first occurrence of each
(business_name, address) key, drops all later records with an identical
key, preserves first-seen order (the output is a sublist of the input),
and leaves no two records with the same key. -/
theorem C6_dedup_first_occurrence :
    ∀ rs : List Record,
      (deduplicate_results rs).Sublist rs ∧
      (deduplicate_results rs).Pairwise (fun a b => recordKey a ≠ recordKey b) ∧
      (∀ r' ∈ deduplicate_results rs,
        rs.find? (fun r => recordKey r = recordKey r') = some r') ∧
      (∀ r ∈ rs, ∃ r' ∈ deduplicate_results rs, recordKey r' = recordKey r) := by
  intro rs
  refine ⟨dedupGo_sublist rs [], dedupGo_pairwise rs [], ?_, ?_⟩
  · intro r' hr'
    exact (dedupGo_mem_find hr').2
  · intro r hr
    rcases dedupGo_covers r hr with hin | h
    · exact absurd hin (List.not_mem_nil _)
    · exact h

/-- Witness for C6 at the concrete list [wDupA, wDupB, wDupA2] (the third
record duplicates the first record's key). -/
theorem C6_dedup_first_occurrence_witness :
    (deduplicate_results [wDupA, wDupB, wDupA2]).Sublist [wDupA, wDupB, wDupA2] ∧
    [wDupA, wDupB, wDupA2].find?
      (fun r => recordKey r = recordKey wDupA) = some wDupA ∧
    (∃ r' ∈ deduplicate_results [wDupA, wDupB, wDupA2],
      recordKey r' = recordKey wDupA2) :=
  ⟨(C6_dedup_first_occurrence [wDupA, wDupB, wDupA2]).1,
   (C6_dedup_first_occurrence [wDupA, wDupB, wDupA2]).2.2.1 wDupA (by decide),
   (C6_dedup_first_occurrence [wDupA, wDupB, wDupA2]).2.2.2 wDupA2 (by decide)⟩

/-- C9: deduplication is idempotent, and its output is a sublist of its
input (no record is created, and order is preserved). -/
theorem C9_dedup_idempotent_sublist :
    ∀ rs : List Record,
      deduplicate_results (deduplicate_results rs) = deduplicate_results rs ∧
      (deduplicate_results rs).Sublist rs := by
  intro rs
  refine ⟨?_, dedupGo_sublist rs []⟩
  exact dedupGo_of_distinct (by simp) (dedupGo_pairwise rs [])

/-- If no record's name matches, the enrichment scan changes nothing. -/
theorem enrichOne_no_match {info : Record} {rs : List Record}
    (h : ∀ r ∈ rs, r.business_name ≠ info.business_name) :
    enrichOne info rs = rs := by
  induction rs with
  | nil => rfl
  | cons r rest ih =>
    simp only [enrichOne, if_neg (h r (List.mem_cons_self _ _))]
    rw [ih (fun a ha => h a (List.mem_cons_of_mem _ ha))]

/-- The enrichment scan rewrites exactly the first matching record. -/
theorem enrichOne_first_match {info r : Record} (pre post : List Record) :
    (∀ r' ∈ pre, r'.business_name ≠ info.business_name) →
    r.business_name = info.business_name →
    enrichOne info (pre ++ r :: post) = pre ++ updateRecord info r :: post := by
  induction pre with
  | nil =>
    intro _ hr
    simp only [List.nil_append, enrichOne, if_pos hr]
  | cons p pre' ih =>
    intro hpre hr
    simp only [List.cons_append, enrichOne, List.append_eq,
      if_neg (hpre p (List.mem_cons_self _ _))]
    rw [ih (fun a ha => hpre a (List.mem_cons_of_mem _ ha)) hr]

/-- C10: one fast-mode enrichment step modifies at most one record — the
first record whose business_name equals the detail-panel name — changing
only its phone, website, has_website and address fields (address only when
the detail address is non-empty); every other record and every other field
is unchanged, and with no matching record the list is unchanged. -/
theorem C10_enrich_frame :
    ∀ (info : Record) (rs : List Record),
      ((∀ r ∈ rs, r.business_name ≠ info.business_name) →
        enrichOne info rs = rs) ∧
      (∀ pre r post, rs = pre ++ r :: post →
        (∀ r' ∈ pre, r'.business_name ≠ info.business_name) →
        r.business_name = info.business_name →
        enrichOne info rs = pre ++ updateRecord info r :: post) ∧
      (∀ r : Record,
        (updateRecord info r).business_name = r.business_name ∧
        (updateRecord info r).category = r.category ∧
        (updateRecord info r).rating = r.rating ∧
        (updateRecord info r).reviews = r.reviews ∧
        (updateRecord info r).google_maps_link = r.google_maps_link ∧
        (updateRecord info r).phone = info.phone ∧
        (updateRecord info r).website = info.website ∧
        (updateRecord info r).has_website = info.has_website ∧
        (updateRecord info r).address =
          (if info.address ≠ "" then info.address else r.address)) := by
  intro info rs
  refine ⟨enrichOne_no_match, ?_, ?_⟩
  · intro pre r post hsplit hpre hr
    rw [hsplit]
    exact enrichOne_first_match pre post hpre hr
  · intro r
    exact ⟨rfl, rfl, rfl, rfl, rfl, rfl, rfl, rfl, rfl⟩

/-- Witness for C10 at concrete lists: no match leaves the list unchanged,
a match rewrites exactly the first matching record. -/
theorem C10_enrich_frame_witness :
    enrichOne wInfo [wDupA] = [wDupA] ∧
    enrichOne wInfo [wDupA, wDupB, wDupA2] =
      [wDupA, updateRecord wInfo wDupB, wDupA2] ∧
    (updateRecord wInfo wDupB).business_name = wDupB.business_name :=
  ⟨(C10_enrich_frame wInfo [wDupA]).1 (by decide),
   (C10_enrich_frame wInfo [wDupA, wDupB, wDupA2]).2.1
     [wDupA] wDupB [wDupA2] rfl (by decide) (by decide),
   ((C10_enrich_frame wInfo [wDupA]).2.2 wDupB).1⟩

/-- C5 counterexample: the page of `wBadSoup` contains a listing anchor
and primary extraction yields zero records, yet `extract_from_list_view`
produces no record at all — refuting "whenever the page contains at least
one listing anchor it produces at least one record". -/
theorem C5_fallback_counterexample :
    wBadSoup.hfpxzcLinks ≠ [] ∧ primaryResults wBadSoup = [] ∧
    extract_from_list_view wBadSoup = [] := by decide

/-- C5 amended: the aria-label fallback is used exactly when primary
selector-based extraction yields zero records, and — in that case — every
page anchor with a NON-EMPTY aria-label contributes a record carrying that
aria-label as business name and the anchor's href (default `""`) as the
Google Maps link. -/
theorem C5_fallback_amended :
    ∀ s : Soup,
      (primaryResults s ≠ [] → extract_from_list_view s = primaryResults s) ∧
      (primaryResults s = [] → extract_from_list_view s = fallbackResults s) ∧
      (primaryResults s = [] → ∀ a ∈ s.hfpxzcLinks, a.ariaLabel.getD "" ≠ "" →
        ∃ r ∈ extract_from_list_view s,
          r.business_name = a.ariaLabel.getD "" ∧
          r.google_maps_link = a.href.getD "") := by
  intro s
  refine ⟨?_, ?_, ?_⟩
  · intro hne
    simp only [extract_from_list_view, if_neg hne]
  · intro he
    simp only [extract_from_list_view, if_pos he]
  · intro he a ha haria
    have hrec : fallbackRecord a =
        some { business_name := a.ariaLabel.getD "", category := "",
               address := "", phone := "", website := "",
               has_website := "Unknown", rating := "", reviews := "",
               google_maps_link := a.href.getD "" } := by
      simp only [fallbackRecord, if_neg haria]
    refine ⟨{ business_name := a.ariaLabel.getD "", category := "",
               address := "", phone := "", website := "",
               has_website := "Unknown", rating := "", reviews := "",
               google_maps_link := a.href.getD "" }, ?_, rfl, rfl⟩
    simp only [extract_from_list_view, if_pos he, fallbackResults]
    exact List.mem_filterMap.2 ⟨a, ha, hrec⟩

/-- Witness for C5 amended at `wSoup` (primary succeeds) and `wFSoup`
(primary empty, fallback produces the aria-label record). -/
theorem C5_fallback_amended_witness :
    extract_from_list_view wSoup = primaryResults wSoup ∧
    extract_from_list_view wFSoup = fallbackResults wFSoup ∧
    (∃ r ∈ extract_from_list_view wFSoup,
      r.business_name = wAnchor.ariaLabel.getD "" ∧
      r.google_maps_link = wAnchor.href.getD "") :=
  ⟨(C5_fallback_amended wSoup).1 (by decide),
   (C5_fallback_amended wFSoup).2.1 (by decide),
   (C5_fallback_amended wFSoup).2.2 (by decide) wAnchor (by decide) (by decide)⟩

/-- A progress callback never touches the job's error field. -/
theorem progress_callback_error (j : JobState) (e : String) (d : CbData) :
    (progress_callback j e d).error = j.error := by
  simp only [progress_callback]
  split_ifs <;> rfl

/-- A progress callback appends exactly its event to the logs. -/
theorem progress_callback_logs (j : JobState) (e : String) (d : CbData) :
    (progress_callback j e d).logs = j.logs ++ [{ event := e, data := d }] := by
  simp only [progress_callback]
  split_ifs <;> rfl

/-- One-step unfolding of `fireEvents`. -/
theorem fireEvents_cons (j : JobState) (e : String × CbData)
    (rest : List (String × CbData)) :
    fireEvents j (e :: rest) = fireEvents (progress_callback j e.1 e.2) rest := rfl

/-- Firing any event list never touches the job's error field. -/
theorem fireEvents_error (evs : List (String × CbData)) :
    ∀ j : JobState, (fireEvents j evs).error = j.error := by
  induction evs with
  | nil => intro j; rfl
  | cons e rest ih =>
    intro j
    rw [fireEvents_cons, ih, progress_callback_error]

/-- Firing events only appends to the logs: membership is preserved. -/
theorem fireEvents_mem_logs {x : LogEntry} (evs : List (String × CbData)) :
    ∀ j : JobState, x ∈ j.logs → x ∈ (fireEvents j evs).logs := by
  induction evs with
  | nil => intro j h; exact h
  | cons e rest ih =>
    intro j h
    rw [fireEvents_cons]
    refine ih _ ?_
    rw [progress_callback_logs]
    exact List.mem_append_left _ h

/-- When the scrape body raises, the returned job state's error field is
what it was before the scrape: the internal `except` only fires callbacks. -/
theorem scrape_raises_error (j : JobState) (evs : List (String × CbData))
    (partialRs : List Record) (msg : String) :
    (scrape_maps_with_progress j (.raises evs partialRs msg)).job.error
      = j.error := by
  simp only [scrape_maps_with_progress]
  rw [progress_callback_error, progress_callback_error, fireEvents_error,
    progress_callback_error]

/-- When the scrape body raises, an "error" log entry carrying the message
is in the returned job state's logs. -/
theorem scrape_raises_error_log (j : JobState) (evs : List (String × CbData))
    (partialRs : List Record) (msg : String) :
    ∃ e ∈ (scrape_maps_with_progress j (.raises evs partialRs msg)).job.logs,
      e.event = "error" ∧ e.data.message = some msg := by
  refine ⟨{ event := "error", data := { message := some msg } }, ?_, rfl, rfl⟩
  simp only [scrape_maps_with_progress]
  rw [progress_callback_logs]
  refine List.mem_append_left _ ?_
  rw [progress_callback_logs]
  exact List.mem_append_right _ (List.mem_singleton_self _)

/-- `run_scraper` completes the job without touching the error field the
scrape returned. -/
theorem run_scraper_error (q : String) (body : BodyOutcome) :
    (run_scraper q body).error
      = (scrape_maps_with_progress (startedJob q) body).job.error := by
  simp only [run_scraper]
  split <;> rfl

/-- `run_scraper` only ever appends to the logs the scrape returned. -/
theorem run_scraper_mem_logs (q : String) (body : BodyOutcome) {x : LogEntry}
    (h : x ∈ (scrape_maps_with_progress (startedJob q) body).job.logs) :
    x ∈ (run_scraper q body).logs := by
  simp only [run_scraper]
  split
  · exact List.mem_append_left _ h
  · exact h

/-- C4 counterexample: a scrape-loop exception with message "boom" is
caught, but the finished job's error field is still `none` (the job even
completes) — the message is not recorded as the job's error field, against
the claim. -/
theorem C4_error_field_counterexample :
    (run_scraper "q" (.raises [] [] "boom")).error = none ∧
    (run_scraper "q" (.raises [] [] "boom")).error ≠ some "boom" ∧
    (run_scraper "q" (.raises [] [] "boom")).status = "completed" := by
  refine ⟨?_, ?_, ?_⟩
  · rw [run_scraper_error, scrape_raises_error]; rfl
  · rw [run_scraper_error, scrape_raises_error]; simp [startedJob, initialJob]
  · rfl

/-- C4 amended: when the scrape loop raises an uncaught exception, the
exception is caught, the error message is recorded as an "error" entry in
the job's LOGS (not in the job's error field, which stays `none` while the
job still completes), and the browser is still quit. -/
theorem C4_error_handling_amended :
    ∀ (q msg : String) (evs : List (String × CbData))
      (partialRs : List Record),
      (scrape_maps_with_progress (startedJob q)
        (.raises evs partialRs msg)).browserQuit = true ∧
      (∃ e ∈ (run_scraper q (.raises evs partialRs msg)).logs,
        e.event = "error" ∧ e.data.message = some msg) ∧
      (run_scraper q (.raises evs partialRs msg)).error = none := by
  intro q msg evs partialRs
  refine ⟨rfl, ?_, ?_⟩
  · obtain ⟨e, he, h1, h2⟩ := scrape_raises_error_log (startedJob q) evs partialRs msg
    exact ⟨e, run_scraper_mem_logs q _ he, h1, h2⟩
  · rw [run_scraper_error, scrape_raises_error]
    rfl

/-- Running from the start, the loop either breaks within the first `m`
checks (returning a count at most `m`), or reaches check `m` with
`last_height = prevH h m`, `no_change_count = ncAt h m` and
`scroll_count = m`. -/
theorem scrollAux_reach (h : Nat → Nat) :
    ∀ m f, (∃ r, r ≤ m ∧ scrollAux h (m + f) 0 0 0 0 = some r) ∨
      scrollAux h (m + f) 0 0 0 0 = scrollAux h f m (prevH h m) (ncAt h m) m := by
  intro m
  induction m with
  | zero =>
    intro f
    right
    rw [Nat.zero_add]
    rfl
  | succ m ih =>
    intro f
    have hfuel : m + 1 + f = m + (f + 1) := by omega
    rw [hfuel]
    rcases ih (f + 1) with ⟨r, hr, heq⟩ | heq
    · exact Or.inl ⟨r, by omega, heq⟩
    · rw [heq]
      by_cases hu : h m = prevH h m
      · by_cases hb : ncAt h m + 1 ≥ 5
        · refine Or.inl ⟨m, by omega, ?_⟩
          simp only [scrollAux]
          rw [if_pos hu, if_pos hb]
        · right
          have hnc : ncAt h (m + 1) = ncAt h m + 1 := by
            simp only [ncAt]
            rw [if_pos hu]
          simp only [scrollAux]
          rw [if_pos hu, if_neg hb, hnc]
          rfl
      · right
        have hnc : ncAt h (m + 1) = 0 := by
          simp only [ncAt]
          rw [if_neg hu]
        simp only [scrollAux]
        rw [if_neg hu, hnc]
        rfl

/-- Once the observed height is constant for the next `k` checks and the
no-change counter will reach 5 within them, the loop breaks, returning a
scroll count at most `cnt + k`. -/
theorem scrollAux_stable_terminates (h : Nat → Nat) :
    ∀ k i last nc cnt, h i = last → (∀ j, j ≤ k → h (i + j) = h i) →
      4 ≤ nc + k →
      ∃ r, r ≤ cnt + k ∧ scrollAux h (k + 1) i last nc cnt = some r := by
  intro k
  induction k with
  | zero =>
    intro i last nc cnt hlast _ hnc
    refine ⟨cnt, by omega, ?_⟩
    simp only [scrollAux]
    rw [if_pos hlast, if_pos (by omega)]
  | succ k ih =>
    intro i last nc cnt hlast hconst hnc
    by_cases hb : nc + 1 ≥ 5
    · refine ⟨cnt, by omega, ?_⟩
      simp only [scrollAux]
      rw [if_pos hlast, if_pos hb]
    · have h1 : h (i + 1) = h i := hconst 1 (by omega)
      have hconst' : ∀ j, j ≤ k → h (i + 1 + j) = h (i + 1) := by
        intro j hj
        have e : i + 1 + j = i + (j + 1) := by omega
        rw [e, hconst (j + 1) (by omega), h1]
      obtain ⟨r, hr, heq⟩ := ih (i + 1) (h i) (nc + 1) (cnt + 1) h1 hconst' (by omega)
      refine ⟨r, by omega, ?_⟩
      simp only [scrollAux]
      rw [if_pos hlast, if_neg hb]
      exact heq

/-- While every check observes a strictly larger height than the previous
one, the loop never breaks, whatever the fuel. -/
theorem scrollAux_increasing_none (h : Nat → Nat) :
    ∀ f i last nc cnt, last < h i → (∀ j, h (i + j) < h (i + j + 1)) →
      scrollAux h f i last nc cnt = none := by
  intro f
  induction f with
  | zero => intro _ _ _ _ _ _; rfl
  | succ f ih =>
    intro i last nc cnt hlt hmono
    have hne : ¬(h i = last) := by omega
    simp only [scrollAux]
    rw [if_neg hne]
    refine ih (i + 1) (h i) 0 (cnt + 1) (hmono 0) ?_
    intro j
    have e1 : i + 1 + j = i + (j + 1) := by omega
    rw [e1]
    exact hmono (j + 1)

/-- C3: the scroll loop terminates once the observed height is unchanged
across 5 consecutive checks — if checks n..n+4 each observe
`h _ = prevH h _`, some fuel makes `scroll_results` return a scroll count
of at most n + 4 — and it never terminates while the height is still
increasing between checks: if every check observes a strictly larger
height than the previous one, `scroll_results` returns `none` for every
fuel. -/
theorem C3_scroll_termination :
    ∀ h : Nat → Nat,
      (∀ n, (∀ j, j ≤ 4 → h (n + j) = prevH h (n + j)) →
        ∃ fuel r, scroll_results h fuel = some r ∧ r ≤ n + 4) ∧
      ((∀ j, prevH h j < h j) → ∀ fuel, scroll_results h fuel = none) := by
  intro h
  constructor
  · intro n hn
    have h0 : h n = prevH h n := hn 0 (by omega)
    have hchain : ∀ j, j ≤ 4 → h (n + j) = h n := by
      intro j
      induction j with
      | zero => intro _; rfl
      | succ j ihj =>
        intro hj
        have h2 : h (n + (j + 1)) = h (n + j) := hn (j + 1) hj
        rw [h2]
        exact ihj (by omega)
    rcases scrollAux_reach h n 5 with ⟨r, hr, heq⟩ | heq
    · exact ⟨n + 5, r, heq, by omega⟩
    · obtain ⟨r, hr, heq2⟩ :=
        scrollAux_stable_terminates h 4 n (prevH h n) (ncAt h n) n h0 hchain
          (by omega)
      exact ⟨n + 5, r, heq.trans heq2, by omega⟩
  · intro hinc fuel
    refine scrollAux_increasing_none h fuel 0 0 0 0 (hinc 0) ?_
    intro j
    have e : (0 : Nat) + j = j := by omega
    rw [e]
    exact hinc (j + 1)

/-- Witness for C3: a constantly-zero height sequence terminates with a
small scroll count; the strictly growing sequence `i + 1` never lets the
loop break. -/
theorem C3_scroll_termination_witness :
    (∃ fuel r, scroll_results (fun _ => 0) fuel = some r ∧ r ≤ 0 + 4) ∧
    (∀ fuel, scroll_results (fun i => i + 1) fuel = none) :=
  ⟨(C3_scroll_termination (fun _ => 0)).1 0 (fun j _ => by cases j <;> rfl),
   (C3_scroll_termination (fun i => i + 1)).2
     (fun j => by cases j <;> simp [prevH])⟩

/-- Reading a just-set position. -/
theorem getD_set_self {α : Type} (l : List α) (n : Nat) (a d : α)
    (h : n < l.length) : (l.set n a).getD n d = a := by
  rw [List.getD_eq_getElem?_getD, List.getElem?_set_self (by simpa using h)]
  rfl

/-- Reading any other position after a set. -/
theorem getD_set_ne {α : Type} (l : List α) (m n : Nat) (a d : α)
    (h : m ≠ n) : (l.set m a).getD n d = l.getD n d := by
  rw [List.getD_eq_getElem?_getD, List.getElem?_set_ne h,
    ← List.getD_eq_getElem?_getD]

/-- When the first name match sits at index `i`, the enrichment scan is a
point update at `i`. -/
theorem enrichOne_set (info d : Record) :
    ∀ (rs : List Record) (i : Nat), i < rs.length →
      (∀ j, j < i → (rs.getD j d).business_name ≠ info.business_name) →
      (rs.getD i d).business_name = info.business_name →
      enrichOne info rs = rs.set i (updateRecord info (rs.getD i d)) := by
  intro rs
  induction rs with
  | nil =>
    intro i hi _ _
    exact absurd hi (by simp)
  | cons r rest ih =>
    intro i hi hpre hmatch
    cases i with
    | zero =>
      have hm : r.business_name = info.business_name := hmatch
      simp only [enrichOne, if_pos hm]
      rfl
    | succ k =>
      have hr : r.business_name ≠ info.business_name := hpre 0 (Nat.succ_pos k)
      simp only [enrichOne, if_neg hr]
      rw [ih k (by simpa using hi) (fun j hj => hpre (j + 1) (by omega)) hmatch]
      rfl

/-- Splitting off the last clicked index of the enrichment loop. -/
theorem enrichLoop_snoc (details : Nat → Option DetailPanel)
    (rs : List Record) (idxs : List Nat) (k : Nat) :
    enrichLoop details rs (idxs ++ [k])
      = match clickInfo details k with
        | some info => enrichOne info (enrichLoop details rs idxs)
        | none => enrichLoop details rs idxs := by
  simp only [enrichLoop, List.foldl_append, List.foldl_cons, List.foldl_nil]

/-- Behaviour of the fast-mode enrichment loop over the first `k` clicked
indices when the base records carry pairwise-distinct names and every
successful click reports the name of the record at its own index: lengths
are preserved, position `j < k` is point-updated from click `j` (or left
alone when the click failed), and every position at or beyond `k` is left
alone. -/
theorem enrichLoop_range_spec (details : Nat → Option DetailPanel)
    (d : Record) (rs : List Record)
    (hdist : ∀ i j, i < rs.length → j < rs.length → i ≠ j →
      (rs.getD i d).business_name ≠ (rs.getD j d).business_name) :
    ∀ k, k ≤ rs.length →
      (∀ i info, i < k → clickInfo details i = some info →
        info.business_name = (rs.getD i d).business_name) →
      (enrichLoop details rs (List.range k)).length = rs.length ∧
      (∀ j info, j < k → clickInfo details j = some info →
        (enrichLoop details rs (List.range k)).getD j d
          = updateRecord info (rs.getD j d)) ∧
      (∀ j, j < k → clickInfo details j = none →
        (enrichLoop details rs (List.range k)).getD j d = rs.getD j d) ∧
      (∀ j, k ≤ j →
        (enrichLoop details rs (List.range k)).getD j d = rs.getD j d) := by
  intro k
  induction k with
  | zero =>
    intro _ _
    exact ⟨rfl, fun j _ hj _ => absurd hj (by omega),
      fun j hj _ => absurd hj (by omega), fun _ _ => rfl⟩
  | succ k ih =>
    intro hk hmatch
    obtain ⟨ihA, ihB, ihB', ihC⟩ :=
      ih (by omega) (fun i info hi => hmatch i info (by omega))
    have hstep : enrichLoop details rs (List.range (k + 1))
        = match clickInfo details k with
          | some info => enrichOne info (enrichLoop details rs (List.range k))
          | none => enrichLoop details rs (List.range k) := by
      rw [List.range_succ]
      exact enrichLoop_snoc details rs (List.range k) k
    have hN : ∀ j, ((enrichLoop details rs (List.range k)).getD j d).business_name
        = (rs.getD j d).business_name := by
      intro j
      by_cases hjk : k ≤ j
      · rw [ihC j hjk]
      · cases hc : clickInfo details j with
        | none => rw [ihB' j (by omega) hc]
        | some info =>
          rw [ihB j info (by omega) hc]
          rfl
    cases hck : clickInfo details k with
    | none =>
      have hout : enrichLoop details rs (List.range (k + 1))
          = enrichLoop details rs (List.range k) := by
        rw [hstep, hck]
      refine ⟨by rw [hout, ihA], ?_, ?_, ?_⟩
      · intro j info hj hcj
        rcases Nat.lt_or_ge j k with hj' | hge
        · rw [hout]
          exact ihB j info hj' hcj
        · have hjeq : j = k := by omega
          subst hjeq
          rw [hck] at hcj
          exact absurd hcj (by simp)
      · intro j hj hcj
        rcases Nat.lt_or_ge j k with hj' | hge
        · rw [hout]
          exact ihB' j hj' hcj
        · have hjeq : j = k := by omega
          subst hjeq
          rw [hout]
          exact ihC j (le_refl _)
      · intro j hj
        rw [hout]
        exact ihC j (by omega)
    | some infoK =>
      have hmk : infoK.business_name = (rs.getD k d).business_name :=
        hmatch k infoK (by omega) hck
      have hkl : k < (enrichLoop details rs (List.range k)).length := by
        rw [ihA]
        omega
      have hset : enrichOne infoK (enrichLoop details rs (List.range k))
          = (enrichLoop details rs (List.range k)).set k
              (updateRecord infoK (rs.getD k d)) := by
        have h1 : enrichOne infoK (enrichLoop details rs (List.range k))
            = (enrichLoop details rs (List.range k)).set k
                (updateRecord infoK
                  ((enrichLoop details rs (List.range k)).getD k d)) := by
          refine enrichOne_set infoK d _ k hkl ?_ ?_
          · intro j hj
            rw [hN j, hmk]
            exact hdist j k (by omega) (by omega) (by omega)
          · rw [ihC k (le_refl _)]
            exact hmk.symm
        rw [h1, ihC k (le_refl _)]
      have hout : enrichLoop details rs (List.range (k + 1))
          = (enrichLoop details rs (List.range k)).set k
              (updateRecord infoK (rs.getD k d)) := by
        rw [hstep, hck]
        exact hset
      refine ⟨by rw [hout, List.length_set, ihA], ?_, ?_, ?_⟩
      · intro j info hj hcj
        rcases Nat.lt_or_ge j k with hj' | hge
        · rw [hout, getD_set_ne _ _ _ _ _ (by omega)]
          exact ihB j info hj' hcj
        · have hjeq : j = k := by omega
          subst hjeq
          rw [hck] at hcj
          have hinfo : infoK = info := by
            injection hcj
          subst hinfo
          rw [hout, getD_set_self _ _ _ _ hkl]
      · intro j hj hcj
        rcases Nat.lt_or_ge j k with hj' | hge
        · rw [hout, getD_set_ne _ _ _ _ _ (by omega)]
          exact ihB' j hj' hcj
        · have hjeq : j = k := by omega
          subst hjeq
          rw [hck] at hcj
          exact absurd hcj (by simp)
      · intro j hj
        rw [hout, getD_set_ne _ _ _ _ _ (by omega)]
        exact ihC j (by omega)

/-- C7: with a feed of 23 listing nodes and detail_limit = 10, fast mode
yields 23 base records (list-view extraction) and the enrichment pass
point-updates exactly the records at positions 0..9 — each from its own
click's detail panel — leaving positions 10..22 untouched. The scenario
hypotheses say what the page delivers: 23 extracted records with
pairwise-distinct names, and for each of the first 10 clicks a detail
panel whose extracted name equals the name of the record at that index. -/
theorem C7_fast_mode_enrichment :
    ∀ (s : Soup) (details : Nat → Option DetailPanel) (d : Record),
      (extract_from_list_view s).length = 23 →
      (∀ i, i < 23 → ∀ j, j < 23 → i ≠ j →
        ((extract_from_list_view s).getD i d).business_name ≠
          ((extract_from_list_view s).getD j d).business_name) →
      (∀ i, i < 10 → (clickInfo details i).isSome = true) →
      (∀ i, i < 10 → ((clickInfo details i).getD d).business_name
        = ((extract_from_list_view s).getD i d).business_name) →
      (fastMode s details 23 10).length = 23 ∧
      (∀ i info, i < 10 → clickInfo details i = some info →
        (fastMode s details 23 10).getD i d
          = updateRecord info ((extract_from_list_view s).getD i d)) ∧
      (∀ i, 10 ≤ i →
        (fastMode s details 23 10).getD i d
          = (extract_from_list_view s).getD i d) := by
  intro s details d hlen hdist hsome hname
  have hfm : fastMode s details 23 10
      = enrichLoop details (extract_from_list_view s) (List.range 10) := by
    simp only [fastMode]
    rw [if_pos ⟨by omega, by omega⟩]
    norm_num
  have hmatch : ∀ i info, i < 10 → clickInfo details i = some info →
      info.business_name
        = ((extract_from_list_view s).getD i d).business_name := by
    intro i info hi hci
    have := hname i hi
    rw [hci] at this
    simpa using this
  obtain ⟨hA, hB, hB', hC⟩ :=
    enrichLoop_range_spec details d (extract_from_list_view s)
      (fun i j hi hj hne => hdist i (hlen ▸ hi) j (hlen ▸ hj) hne)
      10 (by rw [hlen]; omega) hmatch
  refine ⟨?_, ?_, ?_⟩
  · rw [hfm, hA, hlen]
  · intro i info hi hci
    rw [hfm]
    exact hB i info hi hci
  · intro i hi
    rw [hfm]
    exact hC i hi

/-- Witness for C7 at the concrete 23-listing feed with 10 detail panels. -/
theorem C7_fast_mode_enrichment_witness :
    (fastMode wSoup23 wDetails23 23 10).length = 23 ∧
    (∀ i info, i < 10 → clickInfo wDetails23 i = some info →
      (fastMode wSoup23 wDetails23 23 10).getD i emptyRecord
        = updateRecord info
            ((extract_from_list_view wSoup23).getD i emptyRecord)) ∧
    (∀ i, 10 ≤ i →
      (fastMode wSoup23 wDetails23 23 10).getD i emptyRecord
        = (extract_from_list_view wSoup23).getD i emptyRecord) :=
  C7_fast_mode_enrichment wSoup23 wDetails23 emptyRecord (by decide)
    (by decide) (by decide) (by decide)

end LeadGen
